import Mathlib

/-!
Shallow embedding of the WebScrapper repository (Python/Django/Selenium) for
verification of its natural-language specification.

Text scraped from pages is modelled as `List Char`.  Python floats produced by
`float(...)` on digit-and-dot strings are modelled as exact rationals `ℚ`.
Python `None` becomes `Option.none`.  The Django database is modelled as a list
of listing rows, each owning its ordered image collection; a
`transaction.atomic` block that raises becomes a function that returns the
original database unchanged (rollback) together with the value the Python
`except` branch returns.
-/

/-! ### Character classes (ASCII, as Python's `re` sees the scraped text) -/

/-- Python regex `\d` restricted to ASCII: characters '0'..'9'. -/
def isDigitChar (c : Char) : Bool := 48 ≤ c.toNat && c.toNat ≤ 57

/-- Python regex `\s` on the whitespace characters that occur in page text. -/
def isSpaceChar (c : Char) : Bool := c = ' ' || c = '\t' || c = '\n' || c = '\r'

/-- Python `\w` (word character) for `\b` word-boundary checks: `[A-Za-z0-9_]`. -/
def isWordChar (c : Char) : Bool :=
  isDigitChar c || (97 ≤ c.toNat && c.toNat ≤ 122) || (65 ≤ c.toNat && c.toNat ≤ 90) || c = '_'

/-- Numeric value of a digit character. -/
def dval (c : Char) : Nat := c.toNat - 48

/-- The decimal digit character for a value `0..9`. -/
def digitChar : Nat → Char
  | 0 => '0' | 1 => '1' | 2 => '2' | 3 => '3' | 4 => '4'
  | 5 => '5' | 6 => '6' | 7 => '7' | 8 => '8' | _ => '9'

/-- Python `int(...)` on a string of decimal digits (big-endian fold). -/
def digitsToNat (s : List Char) : Nat := s.foldl (fun a c => 10 * a + dval c) 0

/-- Little-endian digit characters of a natural number, with enough fuel in
the first argument (structural recursion so that the kernel can evaluate it). -/
def natToDigitsRevAux : Nat → Nat → List Char
  | _, 0 => []
  | 0, _ + 1 => []
  | fuel + 1, n + 1 => digitChar ((n + 1) % 10) :: natToDigitsRevAux fuel ((n + 1) / 10)

/-- Little-endian digit characters of a natural number (empty for 0). -/
def natToDigitsRev (n : Nat) : List Char := natToDigitsRevAux n n

/-- Decimal rendering of a natural number, as Python `str` would print it. -/
def natToDigits (n : Nat) : List Char :=
  if n = 0 then ['0'] else (natToDigitsRev n).reverse

/-- Python `str.strip()`: drop leading and trailing whitespace. -/
def pyStrip (s : List Char) : List Char :=
  ((s.dropWhile isSpaceChar).reverse.dropWhile isSpaceChar).reverse

/-- Python `str.isdigit()` (ASCII): non-empty and all characters are digits. -/
def pyIsdigit (s : List Char) : Bool := !s.isEmpty && s.all isDigitChar

/-- Python `str.lower()` on ASCII text. -/
def toLowerStr (s : List Char) : List Char := s.map Char.toLower

/-- Python `needle in hay` on strings: substring containment. -/
def isSubstr (needle : List Char) : List Char → Bool
  | [] => needle.isEmpty
  | c :: rest => needle.isPrefixOf (c :: rest) || isSubstr needle rest

/-- Python `str.split('\n')`. -/
def splitLines (s : List Char) : List (List Char) :=
  s.splitOn '\n'

/-! ### `extract_price_numeric` (scraper/scraper.py:25-33, fast_scraper.py:24-32,
simple_scraper.py:31-40)

```python
def extract_price_numeric(price_str):
    if not price_str:
        return None
    s = re.sub(r"[^\d\.]", "", price_str.replace(",", ""))
    try:
        return float(s) if s else None
    except:
        return None
```
The stripped string contains only digits and dots; Python `float` accepts it
exactly when it has at least one digit and at most one dot, and then its value
is the decimal it denotes.  That value is modelled exactly in `ℚ`. -/

/-- `re.sub(r"[^\d\.]", "", s)`: keep only digits and decimal points
(the preceding `.replace(",", "")` removes characters this removes anyway). -/
def stripPriceChars (s : List Char) : List Char :=
  s.filter (fun c => isDigitChar c || c = '.')

/-- A digits-and-dots string is accepted by Python `float` iff it has at least
one digit and at most one dot. -/
def validNumStr (s : List Char) : Bool :=
  s.any isDigitChar && s.count '.' ≤ 1

/-- Split at the first '.': the integer-part digits and everything after. -/
def splitAtDot : List Char → List Char × List Char
  | [] => ([], [])
  | c :: r =>
    if c = '.' then ([], r)
    else
      let p := splitAtDot r
      (c :: p.1, p.2)

/-- The decimal value denoted by a digits-and-dots string with at most one
dot, e.g. "1250.75" ↦ 1250 + 75/100. -/
def decValue (s : List Char) : ℚ :=
  (digitsToNat (splitAtDot s).1 : ℚ)
    + (digitsToNat (splitAtDot s).2 : ℚ) / (10 : ℚ) ^ (splitAtDot s).2.length

/-- Embedding of `extract_price_numeric` (the spec's `priceToNumeric`). -/
def extract_price_numeric (price_str : List Char) : Option ℚ :=
  if price_str.isEmpty then none
  else
    let s := stripPriceChars price_str
    if validNumStr s then some (decValue s) else none

/-- Numerator of the parsed decimal over `10 ^ fracLenOf`. -/
def numOf (s : List Char) : Nat :=
  digitsToNat (splitAtDot s).1 * 10 ^ (splitAtDot s).2.length
    + digitsToNat (splitAtDot s).2

/-- Number of digits after the dot in a digits-and-dots string. -/
def fracLenOf (s : List Char) : Nat := (splitAtDot s).2.length

/-- Exactly `k` big-endian digit characters of `m` (for `m < 10 ^ k`),
zero-padded on the left. -/
def fracDigitsRev : Nat → Nat → List Char
  | 0, _ => []
  | k + 1, m => digitChar (m % 10) :: fracDigitsRev k (m / 10)

/-- Canonical decimal text of the value `n / 10 ^ k`, the textual form a
caller would print for the function's numeric output. -/
def renderDec (n k : Nat) : List Char :=
  if k = 0 then natToDigits n
  else natToDigits (n / 10 ^ k) ++ '.' :: (fracDigitsRev k (n % 10 ^ k)).reverse

/-- Little-endian valuation of a digit string (proof-side companion of the
big-endian fold `digitsToNat`). -/
def valRev : List Char → Nat
  | [] => 0
  | c :: r => dval c + 10 * valRev r

/-! ### `extract_bedrooms_bathrooms` (scraper/scraper.py:93-147)

```python
def extract_bedrooms_bathrooms(text):
    bedrooms = bathrooms = None
    if not text:
        return bedrooms, bathrooms
    lines = text.split('\n')
    for i, line in enumerate(lines):
        line = line.strip()
        property_types = ['detached', 'apartment', 'house', 'penthouse', 'terraced',
                          'semi-detached', 'town house', 'end of terrace',
                          'block of apartments', 'land']
        if any(ptype in line.lower() for ptype in property_types):
            if i + 2 < len(lines):
                bed_line = lines[i + 1].strip()
                bath_line = lines[i + 2].strip()
                if bed_line.isdigit() and bath_line.isdigit():
                    bedrooms = int(bed_line); bathrooms = int(bath_line); break
    if not bedrooms and not bathrooms:
        for pattern in [r'(\d+)\s*bedroom', r'(\d+)\s*bed\b', r'(\d+)\s*beds?', r'(\d+)\s*br\b']:
            match = re.search(pattern, text.lower())
            if match: bedrooms = int(match.group(1)); break
        for pattern in [r'(\d+)\s*bathroom', r'(\d+)\s*bath\b', r'(\d+)\s*baths?', r'(\d+)\s*ba\b']:
            match = re.search(pattern, text.lower())
            if match: bathrooms = int(match.group(1)); break
    return bedrooms, bathrooms
```
No range check is performed anywhere on the parsed counts. -/

/-- The property-type keywords of scraper.py:107-108. -/
def property_types : List (List Char) :=
  ["detached".toList, "apartment".toList, "house".toList, "penthouse".toList,
   "terraced".toList, "semi-detached".toList, "town house".toList,
   "end of terrace".toList, "block of apartments".toList, "land".toList]

/-- First phase of `extract_bedrooms_bathrooms`: scan for a line containing a
property-type keyword whose next two lines are bare integers (scraper.py:103-124).
The Python loop advances by one line whenever the checks fail, and needs
`i + 2 < len(lines)`, i.e. at least two lines after the current one. -/
def scanTypeLines : List (List Char) → Option (Nat × Nat)
  | l0 :: l1 :: l2 :: rest =>
    if property_types.any (fun p => isSubstr p (toLowerStr (pyStrip l0)))
        && pyIsdigit (pyStrip l1) && pyIsdigit (pyStrip l2)
    then some (digitsToNat (pyStrip l1), digitsToNat (pyStrip l2))
    else scanTypeLines (l1 :: l2 :: rest)
  | _ => none

/-- `re.search(r'(\d+)\s*WORD', s)` attempted at the head of `s`:
a non-empty greedy digit run, then optional whitespace, then the literal
`word`; when `boundary` is set, a `\b` must follow (next char not a word
character).  Returns the captured integer. -/
def matchNumWordAt (word : List Char) (boundary : Bool) (s : List Char) : Option Nat :=
  let ds := s.takeWhile isDigitChar
  if ds.isEmpty then none
  else
    let r2 := (s.dropWhile isDigitChar).dropWhile isSpaceChar
    if word.isPrefixOf r2 then
      if boundary then
        match r2.drop word.length with
        | [] => some (digitsToNat ds)
        | c :: _ => if isWordChar c then none else some (digitsToNat ds)
      else some (digitsToNat ds)
    else none

/-- `re.search(r'(\d+)\s*WORD', s)`: leftmost match wins. -/
def searchNumWord (word : List Char) (boundary : Bool) : List Char → Option Nat
  | [] => none
  | c :: rest =>
    match matchNumWordAt word boundary (c :: rest) with
    | some n => some n
    | none => searchNumWord word boundary rest

/-- The bedroom regex chain of scraper.py:128-130, over the lowered text.
`(\d+)\s*beds?` succeeds exactly when `(\d+)\s*bed` does, with the same
captured group, so the optional `s?` does not appear in the model. -/
def search_bedrooms (t : List Char) : Option Nat :=
  match searchNumWord "bedroom".toList false t with
  | some n => some n
  | none =>
    match searchNumWord "bed".toList true t with
    | some n => some n
    | none =>
      match searchNumWord "bed".toList false t with
      | some n => some n
      | none => searchNumWord "br".toList true t

/-- The bathroom regex chain of scraper.py:131-133, over the lowered text. -/
def search_bathrooms (t : List Char) : Option Nat :=
  match searchNumWord "bathroom".toList false t with
  | some n => some n
  | none =>
    match searchNumWord "bath".toList true t with
    | some n => some n
    | none =>
      match searchNumWord "bath".toList false t with
      | some n => some n
      | none => searchNumWord "ba".toList true t

/-- Python truthiness of an optional integer count: `None` and `0` are falsy. -/
def pyTruthyNat : Option Nat → Bool
  | none => false
  | some n => !(n == 0)

/-- Embedding of `extract_bedrooms_bathrooms` (the spec's `countToInt` chain).
Phase 1 may set both counts; phase 2 runs when both are falsy (`None` or `0`)
and overwrites only the fields for which its own regex chain matches. -/
def extract_bedrooms_bathrooms (text : List Char) : Option Nat × Option Nat :=
  if text.isEmpty then (none, none)
  else
    let p1 := scanTypeLines (splitLines text)
    let bd0 : Option Nat := p1.map (·.1)
    let ba0 : Option Nat := p1.map (·.2)
    if !pyTruthyNat bd0 && !pyTruthyNat ba0 then
      (match search_bedrooms (toLowerStr text) with
       | some n => some n
       | none => bd0,
       match search_bathrooms (toLowerStr text) with
       | some n => some n
       | none => ba0)
    else (bd0, ba0)

/-! ### Bedroom/bathroom combination in `extract_property_data_from_card`
(scraper/scraper.py:1138-1141)

```python
bedrooms, bathrooms = extract_bedrooms_bathrooms_from_elements(card)
if not bedrooms and not bathrooms:
    bedrooms, bathrooms = extract_bedrooms_bathrooms(card_text)
```
The element-based phase talks to Selenium and is taken as an input at the
Page-Accessor boundary; the conditional and the plain-text fallback are the
code under verification. -/

/-- The lines 1140-1141 conditional: the plain-text fallback replaces BOTH
fields, and runs exactly when both element-extracted values are Python-falsy. -/
def bedrooms_bathrooms_with_fallback (elem_bedrooms elem_bathrooms : Option Nat)
    (card_text : List Char) : Option Nat × Option Nat :=
  if !pyTruthyNat elem_bedrooms && !pyTruthyNat elem_bathrooms then
    extract_bedrooms_bathrooms card_text
  else (elem_bedrooms, elem_bathrooms)

/-! ### Key-feature extraction (scraper/scraper.py:924-959, simple_scraper.py:133-141)

```python
for selector in key_features_selectors:
    feature_elements = driver.find_elements(By.CSS_SELECTOR, selector)
    for element in feature_elements:
        text = element.text.strip()
        if text and len(text) < 100 and len(text) > 2 and any(
            word in text.lower() for word in
            ['bedroom', 'bathroom', 'reception', 'lift', 'concierge', 'garden',
             'parking', 'garage', 'balcony', 'terrace']):
            property_data['key_features'].append(text)
```
The Selenium element query is the external Page Accessor; the candidate
element texts, in document order, are the function's input. -/

/-- The keyword whitelist of scraper.py:941. -/
def key_feature_words : List (List Char) :=
  ["bedroom".toList, "bathroom".toList, "reception".toList, "lift".toList,
   "concierge".toList, "garden".toList, "parking".toList, "garage".toList,
   "balcony".toList, "terrace".toList]

/-- The acceptance test applied to one stripped candidate text. -/
def keyFeatureAccept (s : List Char) : Bool :=
  !s.isEmpty && s.length < 100 && decide (2 < s.length)
    && key_feature_words.any (fun w => isSubstr w (toLowerStr s))

/-- Embedding of the key-features collection loop: strip each candidate text
and append it when the acceptance test passes. -/
def extract_key_features : List (List Char) → List (List Char)
  | [] => []
  | t :: rest =>
    let s := pyStrip t
    if keyFeatureAccept s then s :: extract_key_features rest
    else extract_key_features rest

/-! ### Full-page-text price fallback (fast_scraper.py:57-63, and the first
pattern of scraper/scraper.py:1122-1136)

```python
price = ""
price_numeric = None
price_match = re.search(r'£[\d,]+(?:\.\d{2})?', page_text)
if price_match:
    price = price_match.group()
    price_numeric = extract_price_numeric(price)
```
-/

/-- Attempt the pattern `£[\d,]+(?:\.\d{2})?` at the head of `s`: a pound
sign, a non-empty greedy run of digits and commas, then optionally a dot
followed by exactly two digits. -/
def matchPriceAt : List Char → Option (List Char)
  | [] => none
  | c :: rest =>
    if c = '£' then
      let ds := rest.takeWhile (fun d => isDigitChar d || d = ',')
      if ds.isEmpty then none
      else
        match rest.dropWhile (fun d => isDigitChar d || d = ',') with
        | '.' :: d1 :: d2 :: _ =>
          if isDigitChar d1 && isDigitChar d2 then
            some ('£' :: ds ++ '.' :: d1 :: [d2])
          else some ('£' :: ds)
        | _ => some ('£' :: ds)
    else none

/-- `re.search` over the whole page text: leftmost match wins. -/
def findPriceMatch : List Char → Option (List Char)
  | [] => none
  | c :: rest =>
    match matchPriceAt (c :: rest) with
    | some m => some m
    | none => findPriceMatch rest

/-- The fallback's `(price, price_numeric)` result: the first match of the
currency pattern in text order, and its parsed numeric value. -/
def price_text_fallback (page_text : List Char) : List Char × Option ℚ :=
  match findPriceMatch page_text with
  | some m => (m, extract_price_numeric m)
  | none => ([], none)

/-! ### Persistence model (scraper/models.py, scraper/scraper.py:1463-1512,
simple_scraper.py:160-199)

`save_property_to_db_simple` (scraper.py) and `save_property_data`
(simple_scraper.py) have identical persistence logic:

```python
def save_property_data(property_data):
    try:
        if not property_data or not property_data.get("listing_url"):
            return False
        with transaction.atomic():
            image_urls = property_data.pop("image_urls", [])
            obj, created = PropertyListing.objects.update_or_create(
                listing_url=property_data["listing_url"],
                defaults=property_data,
            )
            if image_urls:
                obj.images.all().delete()
                for i, image_url in enumerate(image_urls):
                    if image_url and image_url.startswith("http"):
                        PropertyImage.objects.create(
                            property=obj, image_url=image_url, image_order=i,
                            is_primary=(i == 0), image_title=f"Image {i + 1}")
            return created
    except Exception as e:
        logger.error(...)
        return False
```

Model of the Django schema (scraper/models.py): `PropertyListing` is keyed by
the unique `listing_url`; `external_id` is unique and NOT NULL; the row owns a
list of `PropertyImage` rows with a uniqueness constraint on
`(property, image_url)`; `scraping_status` defaults to `'pending'` and is not
among the fields the save functions write.  A constraint violation raises
inside the atomic block: the whole transaction rolls back (database returned
unchanged) and the `except` branch returns `False`. -/

/-- The scalar/collection fields written by `update_or_create`'s `defaults`. -/
structure Fields where
  external_id : Option (List Char)
  title : List Char
  price : List Char
  price_numeric : Option ℚ
  property_type : List Char
  bedrooms : Option Nat
  bathrooms : Option Nat
  size : List Char
  description : List Char
  key_features : List (List Char)
  date_added : Option Nat
deriving Repr, DecidableEq

/-- The `property_data` dict handed to the save functions (the spec's
`ExtractedListing`). -/
structure PropertyData where
  fields : Fields
  listing_url : List Char
  image_urls : List (List Char)
deriving Repr, DecidableEq

/-- One `PropertyImage` row (scraper/models.py:4-18). -/
structure ImageRow where
  image_url : List Char
  image_order : Nat
  is_primary : Bool
  image_title : List Char
deriving Repr, DecidableEq

/-- One `PropertyListing` row together with its owned image collection
(scraper/models.py:23-92).  `scraping_status` defaults to `'pending'`. -/
structure ListingRow where
  listing_url : List Char
  fields : Fields
  scraping_status : List Char
  scraping_error : List Char
  images : List ImageRow
deriving Repr, DecidableEq

/-- The database: the `PropertyListing` table. -/
abbrev DB := List ListingRow

/-- Lookup by the unique key `listing_url`. -/
def findRow (db : DB) (url : List Char) : Option ListingRow :=
  db.find? (fun r => decide (r.listing_url = url))

/-- `update_or_create`'s update path: overwrite the row with that key. -/
def updateRow (db : DB) (url : List Char) (new : ListingRow) : DB :=
  db.map (fun r => if r.listing_url = url then new else r)

/-- All rows carrying a given `listing_url` (uniqueness says at most one). -/
def rowsFor (db : DB) (url : List Char) : List ListingRow :=
  db.filter (fun r => decide (r.listing_url = url))

/-- The image collection owned by the listing with the given URL. -/
def imagesOf (db : DB) (url : List Char) : List ImageRow :=
  match findRow db url with
  | some r => r.images
  | none => []

/-- The `scraping_status` of the listing with the given URL. -/
def statusOf (db : DB) (url : List Char) : Option (List Char) :=
  (findRow db url).map (·.scraping_status)

/-- Python `image_url.startswith("http")`. -/
def startsWithHttp (u : List Char) : Bool := "http".toList.isPrefixOf u

/-- `f"Image {i + 1}"`. -/
def imageTitle (i : Nat) : List Char := "Image ".toList ++ natToDigits (i + 1)

/-- The image-insertion loop from index `i`: `enumerate` keeps counting over
entries the `if image_url and image_url.startswith("http")` guard skips. -/
def buildImagesFrom (i : Nat) : List (List Char) → List ImageRow
  | [] => []
  | u :: rest =>
    if !u.isEmpty && startsWithHttp u then
      ⟨u, i, decide (i = 0), imageTitle i⟩ :: buildImagesFrom (i + 1) rest
    else buildImagesFrom (i + 1) rest

/-- The image rows the insertion loop creates for a listing. -/
def buildImages (urls : List (List Char)) : List ImageRow := buildImagesFrom 0 urls

/-- The URLs the insertion loop actually inserts (truthy and http-prefixed). -/
def insertedUrls (urls : List (List Char)) : List (List Char) :=
  urls.filter (fun u => !u.isEmpty && startsWithHttp u)

/-- The `unique_together = ['property', 'image_url']` constraint
(scraper/models.py:18): inserting the same URL twice for one listing raises. -/
def imageInsertOk (urls : List (List Char)) : Bool :=
  decide (insertedUrls urls).Nodup

/-- The `external_id` column is unique and NOT NULL (scraper/models.py:25):
writing `None` or a value another row holds raises. -/
def extIdOk (e : Option (List Char)) (others : List ListingRow) : Bool :=
  match e with
  | none => false
  | some v => others.all (fun r => decide (r.fields.external_id ≠ some v))

/-- The rows other than the one being written. -/
def saveOthers (pd : PropertyData) (db : DB) : List ListingRow :=
  db.filter (fun r => decide (r.listing_url ≠ pd.listing_url))

/-- Whether the transaction commits: the guard `property_data.get("listing_url")`
is truthy and no uniqueness constraint is violated. -/
def saveOk (pd : PropertyData) (db : DB) : Bool :=
  !pd.listing_url.isEmpty
    && extIdOk pd.fields.external_id (saveOthers pd db)
    && (pd.image_urls.isEmpty || imageInsertOk pd.image_urls)

/-- A freshly created `PropertyListing` row: the model defaults give
`scraping_status = 'pending'` and empty `scraping_error`. -/
def newRow (pd : PropertyData) : ListingRow :=
  { listing_url := pd.listing_url, fields := pd.fields,
    scraping_status := "pending".toList, scraping_error := [], images := [] }

/-- The row state after `update_or_create` and the image block: scalar fields
fully overwritten; images replaced only when `image_urls` is non-empty
(`if image_urls:` skips both the delete and the insert loop). -/
def objFor (pd : PropertyData) (existing : Option ListingRow) : ListingRow :=
  let base := match existing with
    | some r => { r with listing_url := pd.listing_url, fields := pd.fields }
    | none => newRow pd
  if pd.image_urls.isEmpty then base
  else { base with images := buildImages pd.image_urls }

/-- Embedding of `save_property_data` (simple_scraper.py:160-199).  The pair
is (database after the call, the Python return value): `created` on commit,
`False` on rollback. -/
def save_property_data (pd : PropertyData) (db : DB) : DB × Bool :=
  if saveOk pd db then
    match findRow db pd.listing_url with
    | some r => (updateRow db pd.listing_url (objFor pd (some r)), false)
    | none => (db ++ [objFor pd none], true)
  else (db, false)

/-- `save_property_to_db_simple` (scraper/scraper.py:1463-1512) has the same
persistence logic as `save_property_data`, line for line (it only adds
logging). -/
def save_property_to_db_simple : PropertyData → DB → DB × Bool :=
  save_property_data

/-! ### Sample data used by concrete witnesses and counterexamples -/

/-- Scalar field values of a representative extraction. -/
def sampleFields : Fields :=
  { external_id := some "166367849".toList,
    title := "2 bedroom flat".toList,
    price := "£300,000".toList,
    price_numeric := some 300000,
    property_type := "Flat".toList,
    bedrooms := some 2,
    bathrooms := some 1,
    size := "650 sq ft".toList,
    description := [],
    key_features := ["Balcony".toList],
    date_added := none }

/-- An extraction with two distinct http image URLs. -/
def samplePD : PropertyData :=
  { fields := sampleFields,
    listing_url := "https://www.rightmove.co.uk/properties/166367849".toList,
    image_urls := ["http://media/a.jpg".toList, "http://media/b.jpg".toList] }

/-- The same extraction with an empty image-URL sequence. -/
def samplePDNoImages : PropertyData := { samplePD with image_urls := [] }

/-- The same extraction with a duplicated image URL, the spec's `[A, B, A, C]`. -/
def samplePDDup : PropertyData :=
  { samplePD with
    image_urls := ["http://media/a.jpg".toList, "http://media/b.jpg".toList,
                   "http://media/a.jpg".toList, "http://media/c.jpg".toList] }

/-- The same extraction with a non-http entry before an http one. -/
def samplePDGap : PropertyData :=
  { samplePD with
    image_urls := ["ftp://media/x.jpg".toList, "http://media/a.jpg".toList] }

/-! ### Helper lemmas about the persistence model -/

theorem objFor_listing_url (pd : PropertyData) (e : Option ListingRow) :
    (objFor pd e).listing_url = pd.listing_url := by
  cases e <;> simp only [objFor, newRow] <;> split <;> rfl

theorem objFor_idem (pd : PropertyData) (e : Option ListingRow) :
    objFor pd (some (objFor pd e)) = objFor pd e := by
  cases e <;> simp only [objFor, newRow] <;> split <;> rfl

theorem rowsFor_nil_of_findRow_none (db : DB) (url : List Char)
    (h : findRow db url = none) : rowsFor db url = [] := by
  rw [rowsFor, List.filter_eq_nil_iff]
  intro x hx
  have := List.find?_eq_none.mp h x hx
  simpa using this

theorem findRow_update (db : DB) (url : List Char) (obj : ListingRow)
    (hobj : obj.listing_url = url) (r : ListingRow) (h : findRow db url = some r) :
    findRow (updateRow db url obj) url = some obj := by
  induction db with
  | nil => simp [findRow] at h
  | cons a rest ih =>
    by_cases ha : a.listing_url = url
    · simp [updateRow, findRow, ha, hobj]
    · have h' : findRow rest url = some r := by simpa [findRow, ha] using h
      simpa [updateRow, findRow, ha] using ih h'

theorem rowsFor_update (db : DB) (url : List Char) (obj : ListingRow)
    (hobj : obj.listing_url = url) :
    rowsFor (updateRow db url obj) url = (rowsFor db url).map (fun _ => obj) := by
  induction db with
  | nil => rfl
  | cons a rest ih =>
    by_cases ha : a.listing_url = url
    · simp only [updateRow, List.map_cons, if_pos ha, rowsFor] at *
      rw [List.filter_cons_of_pos (by simpa using hobj),
          List.filter_cons_of_pos (by simpa using ha)]
      simpa using ih
    · simp only [updateRow, List.map_cons, if_neg ha, rowsFor] at *
      rw [List.filter_cons_of_neg (by simpa using ha),
          List.filter_cons_of_neg (by simpa using ha)]
      exact ih

theorem saveOthers_update (pd : PropertyData) (db : DB) (obj : ListingRow)
    (hobj : obj.listing_url = pd.listing_url) :
    saveOthers pd (updateRow db pd.listing_url obj) = saveOthers pd db := by
  induction db with
  | nil => rfl
  | cons a rest ih =>
    by_cases ha : a.listing_url = pd.listing_url
    · simp only [updateRow, List.map_cons, if_pos ha, saveOthers] at *
      rw [List.filter_cons_of_neg (by simp [hobj]),
          List.filter_cons_of_neg (by simp [ha])]
      exact ih
    · simp only [updateRow, List.map_cons, if_neg ha, saveOthers] at *
      rw [List.filter_cons_of_pos (by simpa using ha),
          List.filter_cons_of_pos (by simpa using ha)]
      simpa using ih

theorem saveOthers_append (pd : PropertyData) (db : DB) (obj : ListingRow)
    (hobj : obj.listing_url = pd.listing_url) :
    saveOthers pd (db ++ [obj]) = saveOthers pd db := by
  simp [saveOthers, List.filter_append, hobj]

theorem save_eq_update (pd : PropertyData) (db : DB) (r : ListingRow)
    (hok : saveOk pd db = true) (hf : findRow db pd.listing_url = some r) :
    save_property_data pd db
      = (updateRow db pd.listing_url (objFor pd (some r)), false) := by
  simp [save_property_data, hok, hf]

theorem save_eq_create (pd : PropertyData) (db : DB)
    (hok : saveOk pd db = true) (hf : findRow db pd.listing_url = none) :
    save_property_data pd db = (db ++ [objFor pd none], true) := by
  simp [save_property_data, hok, hf]

theorem findRow_append_singleton (db : DB) (url : List Char) (obj : ListingRow)
    (hn : findRow db url = none) (hobj : obj.listing_url = url) :
    findRow (db ++ [obj]) url = some obj := by
  rw [findRow] at *
  rw [List.find?_append, hn]
  simp [hobj]

theorem findRow_save (pd : PropertyData) (db : DB) (hok : saveOk pd db = true) :
    findRow (save_property_data pd db).1 pd.listing_url
      = some (objFor pd (findRow db pd.listing_url)) := by
  cases hf : findRow db pd.listing_url with
  | none =>
    rw [save_eq_create pd db hok hf]
    exact findRow_append_singleton db _ _ hf (objFor_listing_url pd none)
  | some r =>
    rw [save_eq_update pd db r hok hf]
    exact findRow_update db _ _ (objFor_listing_url pd (some r)) r hf

theorem saveOk_save (pd : PropertyData) (db : DB) (hok : saveOk pd db = true) :
    saveOk pd (save_property_data pd db).1 = true := by
  cases hf : findRow db pd.listing_url with
  | none =>
    rw [save_eq_create pd db hok hf]
    rw [saveOk] at *
    rwa [saveOthers_append pd db _ (objFor_listing_url pd none)]
  | some r =>
    rw [save_eq_update pd db r hok hf]
    rw [saveOk] at *
    rwa [saveOthers_update pd db _ (objFor_listing_url pd (some r))]

theorem imagesOf_save (pd : PropertyData) (db : DB) (hok : saveOk pd db = true) :
    imagesOf (save_property_data pd db).1 pd.listing_url
      = (objFor pd (findRow db pd.listing_url)).images := by
  rw [imagesOf, findRow_save pd db hok]

theorem statusOf_save (pd : PropertyData) (db : DB) (hok : saveOk pd db = true) :
    statusOf (save_property_data pd db).1 pd.listing_url
      = some (objFor pd (findRow db pd.listing_url)).scraping_status := by
  rw [statusOf, findRow_save pd db hok, Option.map_some']

theorem rowsFor_le_one (db : DB) (url : List Char)
    (hwf : (db.map (·.listing_url)).Nodup) : (rowsFor db url).length ≤ 1 := by
  induction db with
  | nil => simp [rowsFor]
  | cons a rest ih =>
    rw [List.map_cons, List.nodup_cons] at hwf
    by_cases ha : a.listing_url = url
    · have hrest : rowsFor rest url = [] := by
        rw [rowsFor, List.filter_eq_nil_iff]
        intro x hx hpx
        apply hwf.1
        have hxu : x.listing_url = url := by simpa using hpx
        exact List.mem_map.mpr ⟨x, hx, by rw [hxu, ha]⟩
      rw [rowsFor, List.filter_cons_of_pos (by simpa using ha)]
      rw [rowsFor] at hrest
      rw [hrest]
      simp
    · simpa [rowsFor, ha] using ih hwf.2

theorem rowsFor_pos (db : DB) (url : List Char) (r : ListingRow)
    (hf : findRow db url = some r) : 1 ≤ (rowsFor db url).length := by
  unfold findRow at hf
  have hp := List.find?_some (p := fun x : ListingRow => decide (x.listing_url = url)) hf
  have hmem := List.mem_of_find?_eq_some (p := fun x : ListingRow => decide (x.listing_url = url)) hf
  have hm : r ∈ rowsFor db url := by
    unfold rowsFor
    exact List.mem_filter.mpr ⟨hmem, hp⟩
  have := List.length_pos.mpr (List.ne_nil_of_mem hm)
  omega

theorem updateRow_map_url (db : DB) (url : List Char) (obj : ListingRow)
    (hobj : obj.listing_url = url) :
    (updateRow db url obj).map (·.listing_url) = db.map (·.listing_url) := by
  induction db with
  | nil => rfl
  | cons a rest ih =>
    by_cases ha : a.listing_url = url
    · simp only [updateRow, List.map_cons, if_pos ha] at *
      rw [ih, hobj, ha]
    · simp only [updateRow, List.map_cons, if_neg ha] at *
      rw [ih]

theorem wf_save (pd : PropertyData) (db : DB) (hok : saveOk pd db = true)
    (hwf : (db.map (·.listing_url)).Nodup) :
    ((save_property_data pd db).1.map (·.listing_url)).Nodup := by
  cases hf : findRow db pd.listing_url with
  | none =>
    rw [save_eq_create pd db hok hf]
    rw [List.map_append, List.map_cons, List.map_nil]
    rw [List.nodup_append]
    refine ⟨hwf, List.nodup_singleton _, ?_⟩
    intro x hx
    simp only [List.mem_singleton]
    intro hxe
    obtain ⟨y, hy, hyu⟩ := List.mem_map.mp hx
    have := List.find?_eq_none.mp hf y hy
    rw [objFor_listing_url] at hxe
    exact this (by simpa using (hyu.trans hxe))
  | some r =>
    rw [save_eq_update pd db r hok hf]
    rwa [updateRow_map_url db _ _ (objFor_listing_url pd (some r))]

theorem buildImagesFrom_urls (urls : List (List Char)) :
    ∀ i, (buildImagesFrom i urls).map (·.image_url) = insertedUrls urls := by
  induction urls with
  | nil => intro i; rfl
  | cons u rest ih =>
    intro i
    cases hu : (!u.isEmpty && startsWithHttp u) with
    | true =>
      rw [buildImagesFrom, if_pos hu, List.map_cons, ih]
      simp [insertedUrls, List.filter_cons, hu]
    | false =>
      rw [buildImagesFrom, if_neg (by simp [hu]), ih]
      simp [insertedUrls, List.filter_cons, hu]

theorem startsWithHttp_not_empty (u : List Char) (h : startsWithHttp u = true) :
    u.isEmpty = false := by
  cases u with
  | nil => exact absurd h (by decide)
  | cons c r => rfl

theorem buildImagesFrom_orders (urls : List (List Char))
    (h : ∀ u ∈ urls, startsWithHttp u = true) :
    ∀ i, (buildImagesFrom i urls).map (·.image_order)
      = (List.range urls.length).map (· + i) := by
  induction urls with
  | nil => intro i; rfl
  | cons u rest ih =>
    intro i
    have hu : (!u.isEmpty && startsWithHttp u) = true := by
      have h1 := h u (List.mem_cons_self u rest)
      rw [startsWithHttp_not_empty u h1, h1]
      rfl
    rw [buildImagesFrom, if_pos hu, List.map_cons,
        ih (fun v hv => h v (List.mem_cons_of_mem u hv)) (i + 1)]
    rw [List.length_cons, List.range_succ_eq_map, List.map_cons, List.map_map]
    show i :: _ = (0 + i) :: _
    rw [Nat.zero_add]
    refine congrArg (i :: ·) ?_
    apply List.map_congr_left
    intro a _
    simp only [Function.comp_apply]
    omega

theorem buildImagesFrom_primary (urls : List (List Char)) :
    ∀ i, ∀ r ∈ buildImagesFrom i urls, r.is_primary = decide (r.image_order = 0) := by
  induction urls with
  | nil => intro i r hr; cases hr
  | cons u rest ih =>
    intro i r hr
    rw [buildImagesFrom] at hr
    by_cases hu : (!u.isEmpty && startsWithHttp u) = true
    · rw [if_pos hu] at hr
      rcases List.mem_cons.mp hr with h | h
      · rw [h]
      · exact ih (i + 1) r h
    · rw [if_neg hu] at hr
      exact ih (i + 1) r hr

/-- C1 — Upsert idempotence (`save_property_to_db_simple` /
`save_property_data`): starting from a well-keyed database in which the save
can commit, saving the same `property_data` twice leaves exactly one
`PropertyListing` row keyed by its `listing_url`, the second call leaves the
stored image collection unchanged, and the second call reports
`created = false`. -/
theorem C1_upsert_idempotent (pd : PropertyData) (db : DB)
    (hwf : (db.map (·.listing_url)).Nodup) (hok : saveOk pd db = true) :
    (rowsFor (save_property_data pd (save_property_data pd db).1).1
        pd.listing_url).length = 1 ∧
    imagesOf (save_property_data pd (save_property_data pd db).1).1 pd.listing_url
      = imagesOf (save_property_data pd db).1 pd.listing_url ∧
    (save_property_data pd (save_property_data pd db).1).2 = false := by
  have hok1 : saveOk pd (save_property_data pd db).1 = true := saveOk_save pd db hok
  have hf1 : findRow (save_property_data pd db).1 pd.listing_url
      = some (objFor pd (findRow db pd.listing_url)) := findRow_save pd db hok
  have hsnd := save_eq_update pd (save_property_data pd db).1 _ hok1 hf1
  rw [objFor_idem] at hsnd
  have hwf1 := wf_save pd db hok hwf
  refine ⟨?_, ?_, ?_⟩
  · rw [hsnd]
    rw [rowsFor_update _ _ _ (objFor_listing_url pd (findRow db pd.listing_url))]
    rw [List.length_map]
    have hle := rowsFor_le_one (save_property_data pd db).1 pd.listing_url hwf1
    have hge := rowsFor_pos (save_property_data pd db).1 pd.listing_url _ hf1
    omega
  · rw [hsnd]
    rw [imagesOf, findRow_update _ _ _ (objFor_listing_url pd (findRow db pd.listing_url)) _ hf1]
    rw [imagesOf, hf1]
  · rw [hsnd]

/-- Witness for C1: the representative extraction saved twice into the empty
database. -/
theorem C1_upsert_idempotent_witness :
    (rowsFor (save_property_data samplePD (save_property_data samplePD []).1).1
        samplePD.listing_url).length = 1 ∧
    imagesOf (save_property_data samplePD (save_property_data samplePD []).1).1
        samplePD.listing_url
      = imagesOf (save_property_data samplePD []).1 samplePD.listing_url ∧
    (save_property_data samplePD (save_property_data samplePD []).1).2 = false :=
  C1_upsert_idempotent samplePD [] (by decide) (by decide)

/-- C2 counterexample — the claim fails when the new extraction's `imageURLs`
is empty: after a successful upsert of `samplePD` (two images) followed by a
successful upsert of the same listing with `image_urls = []`, the stored image
set is still the two old images, not the empty set of the most recent upsert
(`if image_urls:` skips the delete). -/
theorem C2_counterexample :
    saveOk samplePDNoImages (save_property_data samplePD []).1 = true ∧
    samplePDNoImages.image_urls = [] ∧
    imagesOf (save_property_data samplePDNoImages (save_property_data samplePD []).1).1
        samplePDNoImages.listing_url
      = buildImages samplePD.image_urls ∧
    buildImages samplePD.image_urls ≠ [] := by decide

/-- C2 (amended) — After every successful upsert with a NON-EMPTY `imageURLs`,
the stored image set is exactly the rows built from that upsert's `imageURLs`
(its truthy http-prefixed entries), with no old image surviving and no mixing;
an upsert whose `imageURLs` is empty leaves the previously stored image set
unchanged. -/
theorem C2_amended_images_mirror (pd : PropertyData) (db : DB)
    (hok : saveOk pd db = true) :
    (pd.image_urls ≠ [] →
      imagesOf (save_property_data pd db).1 pd.listing_url = buildImages pd.image_urls ∧
      (imagesOf (save_property_data pd db).1 pd.listing_url).map (·.image_url)
        = insertedUrls pd.image_urls) ∧
    (pd.image_urls = [] →
      imagesOf (save_property_data pd db).1 pd.listing_url = imagesOf db pd.listing_url) := by
  have him := imagesOf_save pd db hok
  constructor
  · intro hne
    have hobj : (objFor pd (findRow db pd.listing_url)).images = buildImages pd.image_urls := by
      cases hfind : findRow db pd.listing_url <;>
        simp [objFor, newRow, List.isEmpty_iff, hne]
    refine ⟨him.trans hobj, ?_⟩
    rw [him, hobj, buildImages]
    exact buildImagesFrom_urls pd.image_urls 0
  · intro he
    rw [him]
    cases hfind : findRow db pd.listing_url with
    | none => simp [objFor, newRow, he, imagesOf, hfind]
    | some r => simp [objFor, newRow, he, imagesOf, hfind]

/-- Witness for the amended C2: the non-empty case on `samplePD` into the
empty database, and the empty case on top of it. -/
theorem C2_amended_images_mirror_witness :
    imagesOf (save_property_data samplePD []).1 samplePD.listing_url
      = buildImages samplePD.image_urls ∧
    imagesOf (save_property_data samplePDNoImages (save_property_data samplePD []).1).1
        samplePDNoImages.listing_url
      = imagesOf (save_property_data samplePD []).1 samplePDNoImages.listing_url := by
  refine ⟨((C2_amended_images_mirror samplePD [] (by decide)).1 (by decide)).1, ?_⟩
  exact (C2_amended_images_mirror samplePDNoImages (save_property_data samplePD []).1
    (by decide)).2 (by decide)

/-- C3 counterexample — the claimed input `[A, B, A, C]` does not persist as
`[A, B, C]`: the insertion loop performs no de-duplication, so the
`unique_together ('property', 'image_url')` constraint aborts the whole
transaction and nothing at all is persisted.  Moreover a non-http entry is
skipped while `enumerate` keeps counting, leaving a gap: the sole stored image
of `samplePDGap` has `image_order = 1` and no image is primary. -/
theorem C3_counterexample :
    save_property_data samplePDDup [] = ([], false) ∧
    imagesOf (save_property_data samplePDGap []).1 samplePDGap.listing_url
      = [{ image_url := "http://media/a.jpg".toList, image_order := 1,
           is_primary := false, image_title := "Image 2".toList }] := by decide

/-- C3 (amended) — For input image-URL sequences that are pairwise distinct,
non-empty, and all http-prefixed, a successful save persists them in input
order with `image_order` the dense sequence `0..n-1` and `is_primary` true
exactly at order 0.  Duplicate URLs are NOT de-duplicated by the persistence
layer: they violate the image uniqueness constraint and roll the whole
transaction back with result `False` (de-duplication happens at extraction,
before persistence). -/
theorem C3_amended_dense_orders (pd : PropertyData) (db : DB) :
    (saveOk pd db = true → pd.image_urls ≠ [] → pd.image_urls.Nodup →
      (∀ u ∈ pd.image_urls, startsWithHttp u = true) →
      ((imagesOf (save_property_data pd db).1 pd.listing_url).map (·.image_url)
          = pd.image_urls ∧
       (imagesOf (save_property_data pd db).1 pd.listing_url).map (·.image_order)
          = List.range pd.image_urls.length ∧
       ∀ r ∈ imagesOf (save_property_data pd db).1 pd.listing_url,
         (r.is_primary = true ↔ r.image_order = 0))) ∧
    (¬ (insertedUrls pd.image_urls).Nodup → save_property_data pd db = (db, false)) := by
  constructor
  · intro hok hne hnd hhttp
    have him := imagesOf_save pd db hok
    have hobj : (objFor pd (findRow db pd.listing_url)).images = buildImages pd.image_urls := by
      cases hfind : findRow db pd.listing_url <;>
        simp [objFor, newRow, List.isEmpty_iff, hne]
    have hall : ∀ u ∈ pd.image_urls, (!u.isEmpty && startsWithHttp u) = true := by
      intro u hu
      rw [startsWithHttp_not_empty u (hhttp u hu), hhttp u hu]
      rfl
    refine ⟨?_, ?_, ?_⟩
    · rw [him, hobj, buildImages, buildImagesFrom_urls pd.image_urls 0, insertedUrls]
      exact List.filter_eq_self.mpr hall
    · rw [him, hobj, buildImages, buildImagesFrom_orders pd.image_urls hhttp 0]
      simp
    · intro r hr
      rw [him, hobj] at hr
      rw [buildImagesFrom_primary pd.image_urls 0 r hr]
      exact decide_eq_true_iff
  · intro hnd
    have hD : imageInsertOk pd.image_urls = false := by
      rw [imageInsertOk]
      exact decide_eq_false hnd
    have hC : pd.image_urls.isEmpty = false := by
      cases himg : pd.image_urls with
      | nil => exact absurd (by rw [insertedUrls, himg]; exact List.nodup_nil) hnd
      | cons a l => rfl
    have hko : saveOk pd db = false := by
      rw [saveOk, hC, hD]
      simp
    simp [save_property_data, hko]

/-- Witness for the amended C3: the dense-order case on `samplePD` and the
duplicate-abort case on `samplePDDup`. -/
theorem C3_amended_dense_orders_witness :
    ((imagesOf (save_property_data samplePD []).1 samplePD.listing_url).map
        (·.image_url) = samplePD.image_urls ∧
     (imagesOf (save_property_data samplePD []).1 samplePD.listing_url).map
        (·.image_order) = List.range samplePD.image_urls.length ∧
     ∀ r ∈ imagesOf (save_property_data samplePD []).1 samplePD.listing_url,
       (r.is_primary = true ↔ r.image_order = 0)) ∧
    save_property_data samplePDDup [] = ([], false) := by
  refine ⟨(C3_amended_dense_orders samplePD []).1 (by decide) (by decide)
    (by decide) (by decide), ?_⟩
  exact (C3_amended_dense_orders samplePDDup []).2 (by decide)

/-- C4 counterexample — a failed upsert is NOT reported distinguishably from a
normal updated outcome, and no cause reaches the caller: the failing save of
`samplePDDup` (image uniqueness violation) returns exactly the same value,
`False`, as the perfectly successful update of `samplePD` over its own
previous save.  (The rollback itself does happen: the database is returned
unchanged.) -/
theorem C4_counterexample :
    (save_property_data samplePDDup []).2
      = (save_property_data samplePD (save_property_data samplePD []).1).2 ∧
    saveOk samplePDDup [] = false ∧
    saveOk samplePD (save_property_data samplePD []).1 = true ∧
    (save_property_data samplePDDup []).1 = [] := by decide

/-- C4 (amended) — When an upsert attempt fails, the whole transaction rolls
back: the database is exactly as before the attempt and the caller receives
`False` — but `False` is also what a normal successful UPDATE returns, so the
failure is not distinguishable from an updated outcome and the underlying
cause is only logged, never returned. -/
theorem C4_amended_rollback (pd : PropertyData) (db : DB) :
    (saveOk pd db = false → save_property_data pd db = (db, false)) ∧
    (saveOk pd db = true → (findRow db pd.listing_url).isSome = true →
      (save_property_data pd db).2 = false) := by
  constructor
  · intro h
    simp [save_property_data, h]
  · intro hok hsome
    cases hf : findRow db pd.listing_url with
    | none => rw [hf] at hsome; cases hsome
    | some r => rw [save_eq_update pd db r hok hf]

/-- Witness for the amended C4: the duplicate-URL failure rolls back to the
empty database, and a successful re-save of `samplePD` also returns `False`. -/
theorem C4_amended_rollback_witness :
    save_property_data samplePDDup [] = ([], false) ∧
    (save_property_data samplePD (save_property_data samplePD []).1).2 = false := by
  refine ⟨(C4_amended_rollback samplePDDup []).1 (by decide), ?_⟩
  exact (C4_amended_rollback samplePD (save_property_data samplePD []).1).2
    (by decide) (by decide)

/-- C9 — evidence of the code bug: a fully successful create (the upsert
commits, `created = True`) leaves the listing's `scraping_status` at the model
default `'pending'`; no code path in the repository ever writes `'scraping'`,
`'completed'` or `'failed'`, so a successfully upserted listing stays
`pending`, contradicting the claimed state machine. -/
theorem C9_status_stays_pending :
    (save_property_data samplePD []).2 = true ∧
    statusOf (save_property_data samplePD []).1 samplePD.listing_url
      = some "pending".toList ∧
    "pending".toList ≠ "completed".toList := by decide

/-- C10 — In `extract_property_data_from_card` the plain-text fallback for
bedroom/bathroom counts runs exactly when the element-based results are both
Python-falsy: legitimately extracted zeros `(0, 0)` are treated as
"not found" and the fallback's result replaces them wholesale, while if even
one field was found truthy the fallback never runs, leaving the other field
`None`. -/
theorem C10_fallback_condition (t : List Char) (b : Nat) (hb : b ≠ 0) :
    bedrooms_bathrooms_with_fallback (some 0) (some 0) t
      = extract_bedrooms_bathrooms t ∧
    bedrooms_bathrooms_with_fallback (some b) none t = (some b, none) ∧
    bedrooms_bathrooms_with_fallback none (some b) t = (none, some b) := by
  refine ⟨rfl, ?_, ?_⟩ <;>
    simp [bedrooms_bathrooms_with_fallback, pyTruthyNat, hb]

/-- Witness for C10: on the card text "2 bedroom 1 bathroom" element-extracted
zeros are overwritten to `(some 2, some 1)`, and an element-extracted
`(some 3, none)` is left alone even though the text mentions a bathroom. -/
theorem C10_fallback_condition_witness :
    bedrooms_bathrooms_with_fallback (some 0) (some 0) "2 bedroom 1 bathroom".toList
      = (some 2, some 1) ∧
    bedrooms_bathrooms_with_fallback (some 3) none "9 bathroom".toList
      = (some 3, none) := by
  have h1 := C10_fallback_condition ("2 bedroom 1 bathroom".toList) 3 (by decide)
  have h2 := C10_fallback_condition ("9 bathroom".toList) 3 (by decide)
  exact ⟨h1.1.trans (by decide), h2.2.1⟩

/-- C5 — evidence of the code bug: on the page text "45 bedroom" the
plain-text extraction chain returns bedrooms = 45, a value outside the 0..20
range that the model's own validators (`MinValueValidator(0)`,
`MaxValueValidator(20)` on `PropertyListing.bedrooms`) declare, and that the
claim says must become "no value"; no range check exists anywhere in the
extraction or save path (Django validators do not run on `save()`). -/
theorem C5_out_of_range_not_rejected :
    extract_bedrooms_bathrooms "45 bedroom".toList = (some 45, none) ∧
    ¬ (45 : Nat) ≤ 20 := by decide

/-- C6 counterexample — on the claim's own sample candidate lines the
extractor returns `["Balcony", "PRIVATE PARKING"]`, not `["Balcony"]`: the
code has no all-uppercase, colon, or currency-symbol exclusion at all; the
all-uppercase "PRIVATE PARKING" is kept because it contains the keyword
"parking", and "Tenure: Leasehold" is dropped only because it contains no
keyword, not because of its colon. -/
theorem C6_counterexample :
    extract_key_features
        ["Balcony".toList, "PRIVATE PARKING".toList, "Tenure: Leasehold".toList]
      = ["Balcony".toList, "PRIVATE PARKING".toList] ∧
    ["Balcony".toList, "PRIVATE PARKING".toList] ≠ ["Balcony".toList] := by decide

/-- C6 (amended) — The key-features extractor keeps, in document order,
exactly the stripped candidate texts that are non-empty, shorter than 100
characters, longer than 2, and contain one of the property keywords (bedroom,
bathroom, reception, lift, concierge, garden, parking, garage, balcony,
terrace) in lowered form; it performs no all-uppercase, colon, or
currency-symbol exclusion, so on the sample page the result is
`["Balcony", "PRIVATE PARKING"]`. -/
theorem C6_amended_keyword_filter (texts : List (List Char)) :
    extract_key_features texts = (texts.map pyStrip).filter keyFeatureAccept ∧
    ∀ s ∈ extract_key_features texts, keyFeatureAccept s = true := by
  have heq : extract_key_features texts = (texts.map pyStrip).filter keyFeatureAccept := by
    induction texts with
    | nil => rfl
    | cons t rest ih =>
      cases h : keyFeatureAccept (pyStrip t) with
      | true => simp [extract_key_features, List.filter_cons, h, ih]
      | false => simp [extract_key_features, List.filter_cons, h, ih]
  refine ⟨heq, ?_⟩
  intro s hs
  rw [heq] at hs
  exact List.of_mem_filter hs

/-- C7 counterexample — on a page whose text carries an incidental small
amount before the listing price, the fallback returns the FIRST currency
match "£5" (value 5), not the numerically largest plausible amount
"£300,000", which does occur later in the text (at offset 22). -/
theorem C7_counterexample :
    (price_text_fallback "Deposit £5 now. Price £300,000 total.".toList).1
      = "£5".toList ∧
    findPriceMatch "Deposit £5 now. Price £300,000 total.".toList
      = some "£5".toList ∧
    matchPriceAt (("Deposit £5 now. Price £300,000 total.".toList).drop 22)
      = some "£300,000".toList ∧
    digitsToNat (stripPriceChars "£5".toList)
      < digitsToNat (stripPriceChars "£300,000".toList) := by decide

/-- C7 (amended) — When no structural price element matched, the
full-page-text fallback returns the match of `£[\d,]+(?:\.\d{2})?` at the
LEFTMOST matching position of the page text, together with its parsed
numeric value; no minimum-threshold filtering and no largest-amount selection
take place. -/
theorem C7_amended_first_match : ∀ (text m : List Char),
    findPriceMatch text = some m →
    (price_text_fallback text = (m, extract_price_numeric m) ∧
     ∃ i, matchPriceAt (text.drop i) = some m ∧
       ∀ j < i, matchPriceAt (text.drop j) = none) := by
  intro text
  induction text with
  | nil => intro m h; cases h
  | cons c rest ih =>
    intro m h
    have hfb : price_text_fallback (c :: rest) = (m, extract_price_numeric m) := by
      rw [price_text_fallback, h]
    refine ⟨hfb, ?_⟩
    rw [findPriceMatch] at h
    cases hm : matchPriceAt (c :: rest) with
    | some m0 =>
      rw [hm] at h
      injection h with he
      refine ⟨0, ?_, ?_⟩
      · rw [List.drop_zero, hm, he]
      · intro j hj
        exact absurd hj (Nat.not_lt_zero j)
    | none =>
      rw [hm] at h
      obtain ⟨-, i, hi, hj⟩ := ih m h
      refine ⟨i + 1, by simpa using hi, ?_⟩
      intro j hj2
      cases j with
      | zero => simpa using hm
      | succ k => simpa using hj k (by omega)

/-- Witness for the amended C7: on the counterexample page the fallback
returns the leftmost match "£5" with its parsed value. -/
theorem C7_amended_first_match_witness :
    price_text_fallback "Deposit £5 now. Price £300,000 total.".toList
      = ("£5".toList, extract_price_numeric "£5".toList) ∧
    ∃ i, matchPriceAt (("Deposit £5 now. Price £300,000 total.".toList).drop i)
        = some "£5".toList ∧
      ∀ j < i,
        matchPriceAt (("Deposit £5 now. Price £300,000 total.".toList).drop j) = none :=
  C7_amended_first_match ("Deposit £5 now. Price £300,000 total.".toList)
    ("£5".toList) (by decide)

/-! ### Digit-string lemmas for the price normalizer -/

theorem digitsToNat_append (xs : List Char) (c : Char) :
    digitsToNat (xs ++ [c]) = 10 * digitsToNat xs + dval c := by
  rw [digitsToNat, List.foldl_append]
  rfl

theorem digitsToNat_reverse (l : List Char) : digitsToNat l.reverse = valRev l := by
  induction l with
  | nil => rfl
  | cons c r ih =>
    rw [List.reverse_cons, digitsToNat_append, ih, valRev]
    omega

theorem dval_digitChar (d : Nat) (h : d < 10) : dval (digitChar d) = d := by
  interval_cases d <;> rfl

theorem isDigitChar_digitChar (d : Nat) (h : d < 10) :
    isDigitChar (digitChar d) = true := by
  interval_cases d <;> rfl

theorem valRev_natToDigitsRevAux (fuel : Nat) :
    ∀ m, m ≤ fuel → valRev (natToDigitsRevAux fuel m) = m := by
  induction fuel with
  | zero =>
    intro m hm
    interval_cases m
    rfl
  | succ fuel ih =>
    intro m hm
    cases m with
    | zero => rfl
    | succ j =>
      rw [natToDigitsRevAux, valRev]
      rw [dval_digitChar _ (Nat.mod_lt _ (by omega))]
      rw [ih ((j + 1) / 10) (by omega)]
      omega

theorem digitsToNat_natToDigits (m : Nat) : digitsToNat (natToDigits m) = m := by
  rw [natToDigits]
  by_cases h : m = 0
  · subst h; rfl
  · rw [if_neg h, natToDigitsRev, digitsToNat_reverse,
      valRev_natToDigitsRevAux m m le_rfl]

theorem mem_natToDigitsRevAux_digit (fuel : Nat) :
    ∀ m c, c ∈ natToDigitsRevAux fuel m → isDigitChar c = true := by
  induction fuel with
  | zero =>
    intro m c hc
    cases m with
    | zero => cases hc
    | succ j => cases hc
  | succ fuel ih =>
    intro m c hc
    cases m with
    | zero => cases hc
    | succ j =>
      rw [natToDigitsRevAux] at hc
      rcases List.mem_cons.mp hc with h | h
      · rw [h]
        exact isDigitChar_digitChar _ (Nat.mod_lt _ (by omega))
      · exact ih _ c h

theorem natToDigits_digits (m : Nat) : ∀ c ∈ natToDigits m, isDigitChar c = true := by
  intro c hc
  rw [natToDigits] at hc
  by_cases h : m = 0
  · rw [if_pos h] at hc
    rw [List.mem_singleton.mp hc]
    rfl
  · rw [if_neg h, natToDigitsRev] at hc
    exact mem_natToDigitsRevAux_digit m m c (List.mem_reverse.mp hc)

theorem natToDigits_ne_nil (m : Nat) : natToDigits m ≠ [] := by
  rw [natToDigits]
  by_cases h : m = 0
  · rw [if_pos h]; simp
  · rw [if_neg h]
    cases m with
    | zero => exact absurd rfl h
    | succ j => simp [natToDigitsRev, natToDigitsRevAux]

theorem fracDigitsRev_length (k : Nat) : ∀ m, (fracDigitsRev k m).length = k := by
  induction k with
  | zero => intro m; rfl
  | succ k ih => intro m; rw [fracDigitsRev, List.length_cons, ih]

theorem fracDigitsRev_digits (k : Nat) :
    ∀ m c, c ∈ fracDigitsRev k m → isDigitChar c = true := by
  induction k with
  | zero => intro m c hc; cases hc
  | succ k ih =>
    intro m c hc
    rw [fracDigitsRev] at hc
    rcases List.mem_cons.mp hc with h | h
    · rw [h]
      exact isDigitChar_digitChar _ (Nat.mod_lt _ (by omega))
    · exact ih _ c h

theorem valRev_fracDigitsRev (k : Nat) :
    ∀ m, m < 10 ^ k → valRev (fracDigitsRev k m) = m := by
  induction k with
  | zero =>
    intro m hm
    rw [pow_zero] at hm
    interval_cases m
    rfl
  | succ k ih =>
    intro m hm
    rw [fracDigitsRev, valRev, dval_digitChar _ (Nat.mod_lt _ (by omega))]
    rw [ih (m / 10) ((Nat.div_lt_iff_lt_mul (by omega)).mpr (by rw [pow_succ] at hm; omega))]
    omega

theorem digit_le_nine (c : Char) (h : isDigitChar c = true) : dval c ≤ 9 := by
  rw [isDigitChar, Bool.and_eq_true] at h
  have h1 := of_decide_eq_true h.1
  have h2 := of_decide_eq_true h.2
  rw [dval]
  omega

theorem digit_ne_dot (c : Char) (h : isDigitChar c = true) : c ≠ '.' := by
  intro he
  rw [he] at h
  exact absurd h (by decide)

theorem valRev_lt (l : List Char) (h : ∀ c ∈ l, isDigitChar c = true) :
    valRev l < 10 ^ l.length := by
  induction l with
  | nil => simp [valRev]
  | cons c r ih =>
    rw [valRev, List.length_cons, pow_succ]
    have h1 := digit_le_nine c (h c (List.mem_cons_self c r))
    have h2 := ih (fun x hx => h x (List.mem_cons_of_mem c hx))
    omega

theorem digitsToNat_lt (l : List Char) (h : ∀ c ∈ l, isDigitChar c = true) :
    digitsToNat l < 10 ^ l.length := by
  have he : digitsToNat l = valRev l.reverse := by
    rw [← List.reverse_reverse l, digitsToNat_reverse, List.reverse_reverse]
  rw [he, ← List.length_reverse l]
  exact valRev_lt l.reverse (fun c hc => h c (List.mem_reverse.mp hc))

theorem no_dot_of_digits (l : List Char) (h : ∀ c ∈ l, isDigitChar c = true) :
    l.count '.' = 0 := by
  rw [List.count_eq_zero]
  intro hm
  exact digit_ne_dot '.' (h '.' hm) rfl

theorem splitAtDot_no_dot (t : List Char) (h : '.' ∉ t) : splitAtDot t = (t, []) := by
  induction t with
  | nil => rfl
  | cons c r ih =>
    have hc : ¬ c = '.' := fun hc => h (by rw [hc]; exact List.mem_cons_self _ _)
    simp only [splitAtDot, if_neg hc, ih (fun hm => h (List.mem_cons_of_mem c hm))]

theorem splitAtDot_append (a b : List Char) (h : '.' ∉ a) :
    splitAtDot (a ++ '.' :: b) = (a, b) := by
  induction a with
  | nil => simp [splitAtDot]
  | cons c r ih =>
    have hc : ¬ c = '.' := fun hc => h (by rw [hc]; exact List.mem_cons_self _ _)
    simp only [List.cons_append, splitAtDot, if_neg hc, List.append_eq,
      ih (fun hm => h (List.mem_cons_of_mem c hm))]

theorem splitAtDot_decomp (t : List Char) (h : '.' ∈ t) :
    t = (splitAtDot t).1 ++ '.' :: (splitAtDot t).2 ∧ '.' ∉ (splitAtDot t).1 := by
  induction t with
  | nil => cases h
  | cons c r ih =>
    by_cases hc : c = '.'
    · subst hc
      simp [splitAtDot]
    · have hr : '.' ∈ r := by
        rcases List.mem_cons.mp h with h0 | h0
        · exact absurd h0.symm hc
        · exact h0
      obtain ⟨h1, h2⟩ := ih hr
      constructor
      · simp only [splitAtDot, if_neg hc, List.cons_append]
        exact congrArg (c :: ·) h1
      · simp only [splitAtDot, if_neg hc]
        intro hm
        rcases List.mem_cons.mp hm with h0 | h0
        · exact hc h0.symm
        · exact h2 h0

theorem validNumStr_parts (l : List Char) (c : Char) (hc : c ∈ l)
    (hdig : isDigitChar c = true) (hcount : l.count '.' ≤ 1) :
    validNumStr l = true := by
  rw [validNumStr, Bool.and_eq_true]
  exact ⟨List.any_eq_true.mpr ⟨c, hc, hdig⟩, decide_eq_true hcount⟩

theorem decValue_no_dot (l : List Char) (h : '.' ∉ l) :
    decValue l = (digitsToNat l : ℚ) := by
  rw [decValue, splitAtDot_no_dot l h]
  norm_num [digitsToNat]

theorem decValue_split (a b : List Char) (h : '.' ∉ a) :
    decValue (a ++ '.' :: b)
      = (digitsToNat a : ℚ) + (digitsToNat b : ℚ) / (10 : ℚ) ^ b.length := by
  rw [decValue, splitAtDot_append a b h]

theorem renderDec_spec (t : List Char)
    (hchars : ∀ c ∈ t, (isDigitChar c || c = '.') = true)
    (hcount : t.count '.' ≤ 1) :
    stripPriceChars (renderDec (numOf t) (fracLenOf t))
        = renderDec (numOf t) (fracLenOf t) ∧
    validNumStr (renderDec (numOf t) (fracLenOf t)) = true ∧
    renderDec (numOf t) (fracLenOf t) ≠ [] ∧
    decValue (renderDec (numOf t) (fracLenOf t)) = decValue t := by
  have hab : (∀ c ∈ (splitAtDot t).1, isDigitChar c = true) ∧
      (∀ c ∈ (splitAtDot t).2, isDigitChar c = true) := by
    by_cases hdot : '.' ∈ t
    · obtain ⟨h1, h2⟩ := splitAtDot_decomp t hdot
      have hc2 : (splitAtDot t).2.count '.' = 0 := by
        have hcc := hcount
        rw [h1, List.count_append, List.count_cons_self] at hcc
        omega
      have hnb : '.' ∉ (splitAtDot t).2 := List.count_eq_zero.mp hc2
      constructor
      · intro c hc
        have hmem : c ∈ t := by rw [h1]; exact List.mem_append_left _ hc
        rcases (by simpa using hchars c hmem : isDigitChar c = true ∨ c = '.') with hd | hd
        · exact hd
        · exact absurd (hd ▸ hc) h2
      · intro c hc
        have hmem : c ∈ t := by
          rw [h1]
          exact List.mem_append_right _ (List.mem_cons_of_mem _ hc)
        rcases (by simpa using hchars c hmem : isDigitChar c = true ∨ c = '.') with hd | hd
        · exact hd
        · exact absurd (hd ▸ hc) hnb
    · rw [splitAtDot_no_dot t hdot]
      constructor
      · intro c hc
        rcases (by simpa using hchars c hc : isDigitChar c = true ∨ c = '.') with hd | hd
        · exact hd
        · exact absurd (hd ▸ hc) hdot
      · intro c hc
        cases hc
  by_cases hk : fracLenOf t = 0
  · have hb0 : (splitAtDot t).2 = [] := by
      rw [fracLenOf] at hk
      exact List.length_eq_zero.mp hk
    have hnum : numOf t = digitsToNat (splitAtDot t).1 := by
      rw [numOf, hb0]
      simp [digitsToNat]
    have hnodot : '.' ∉ natToDigits (numOf t) :=
      List.count_eq_zero.mp (no_dot_of_digits _ (natToDigits_digits (numOf t)))
    have hrend : renderDec (numOf t) (fracLenOf t) = natToDigits (numOf t) := by
      rw [hk, renderDec, if_pos rfl]
    rw [hrend]
    obtain ⟨c0, hc0⟩ := List.exists_mem_of_ne_nil _ (natToDigits_ne_nil (numOf t))
    refine ⟨?_, ?_, natToDigits_ne_nil _, ?_⟩
    · rw [stripPriceChars, List.filter_eq_self]
      intro c hc
      rw [Bool.or_eq_true]
      exact Or.inl (natToDigits_digits _ c hc)
    · exact validNumStr_parts _ c0 hc0 (natToDigits_digits _ c0 hc0)
        (by rw [no_dot_of_digits _ (natToDigits_digits _)]; omega)
    · rw [decValue_no_dot _ hnodot, digitsToNat_natToDigits, hnum]
      rw [decValue, hb0]
      simp [digitsToNat]
  · have hBlt : digitsToNat (splitAtDot t).2 < 10 ^ fracLenOf t := by
      rw [fracLenOf]
      exact digitsToNat_lt _ hab.2
    have h10 : 0 < 10 ^ fracLenOf t := pow_pos (by omega) _
    have hdiv : numOf t / 10 ^ fracLenOf t = digitsToNat (splitAtDot t).1 := by
      rw [numOf, fracLenOf, Nat.mul_comm, ← fracLenOf, Nat.mul_add_div h10,
        Nat.div_eq_of_lt hBlt, Nat.add_zero]
    have hmod : numOf t % 10 ^ fracLenOf t = digitsToNat (splitAtDot t).2 := by
      rw [numOf, fracLenOf, Nat.mul_comm, ← fracLenOf, Nat.mul_add_mod,
        Nat.mod_eq_of_lt hBlt]
    have hrend : renderDec (numOf t) (fracLenOf t)
        = natToDigits (digitsToNat (splitAtDot t).1)
          ++ '.' :: (fracDigitsRev (fracLenOf t) (digitsToNat (splitAtDot t).2)).reverse := by
      rw [renderDec, if_neg hk, hdiv, hmod]
    have hFdig : ∀ c ∈ (fracDigitsRev (fracLenOf t) (digitsToNat (splitAtDot t).2)).reverse,
        isDigitChar c = true := by
      intro c hc
      exact fracDigitsRev_digits _ _ c (List.mem_reverse.mp hc)
    have hFlen : (fracDigitsRev (fracLenOf t) (digitsToNat (splitAtDot t).2)).reverse.length
        = fracLenOf t := by
      rw [List.length_reverse, fracDigitsRev_length]
    have hFval : digitsToNat
        (fracDigitsRev (fracLenOf t) (digitsToNat (splitAtDot t).2)).reverse
        = digitsToNat (splitAtDot t).2 := by
      rw [digitsToNat_reverse, valRev_fracDigitsRev _ _ hBlt]
    have hnodotA : '.' ∉ natToDigits (digitsToNat (splitAtDot t).1) :=
      List.count_eq_zero.mp (no_dot_of_digits _ (natToDigits_digits _))
    rw [hrend]
    obtain ⟨c0, hc0⟩ := List.exists_mem_of_ne_nil _ (natToDigits_ne_nil
      (digitsToNat (splitAtDot t).1))
    refine ⟨?_, ?_, by simp, ?_⟩
    · rw [stripPriceChars, List.filter_eq_self]
      intro c hc
      rw [Bool.or_eq_true]
      rcases List.mem_append.mp hc with h | h
      · exact Or.inl (natToDigits_digits _ c h)
      · rcases List.mem_cons.mp h with h | h
        · exact Or.inr (decide_eq_true h)
        · exact Or.inl (hFdig c h)
    · refine validNumStr_parts _ c0 (List.mem_append_left _ hc0)
        (natToDigits_digits _ c0 hc0) ?_
      rw [List.count_append, List.count_cons_self,
        no_dot_of_digits _ (natToDigits_digits _), no_dot_of_digits _ hFdig]
    · rw [decValue_split _ _ hnodotA, digitsToNat_natToDigits, hFval, hFlen]
      rw [decValue, fracLenOf]

/-- C8 — `priceToNumeric` (`extract_price_numeric`): for every input string
the function strips every character that is not a digit or decimal point and
returns the parsed decimal of the stripped string, returning "no value"
exactly when the stripped string is empty or unparsable (no digit, or more
than one dot); it is deterministic (it is a pure function of its input), and
re-applying it to the canonical textual form of its own output — the decimal
rendering `renderDec` of the parsed numerator and fraction length — returns
the same value. -/
theorem C8_price_numeric (s : List Char) :
    (extract_price_numeric s = none
      ↔ validNumStr (stripPriceChars s) = false) ∧
    (validNumStr (stripPriceChars s) = true →
      extract_price_numeric s = some (decValue (stripPriceChars s)) ∧
      extract_price_numeric
          (renderDec (numOf (stripPriceChars s)) (fracLenOf (stripPriceChars s)))
        = extract_price_numeric s) := by
  have hchars : ∀ c ∈ stripPriceChars s, (isDigitChar c || c = '.') = true := by
    intro c hc
    rw [stripPriceChars] at hc
    exact (List.mem_filter.mp hc).2
  constructor
  · by_cases hs : s = []
    · subst hs
      exact ⟨fun _ => rfl, fun _ => rfl⟩
    · rw [extract_price_numeric, if_neg (by simpa using hs)]
      cases hv : validNumStr (stripPriceChars s) with
      | true => simp [hv]
      | false => simp [hv]
  · intro hv
    have hs : s ≠ [] := by
      intro he
      subst he
      exact absurd hv (by decide)
    have h1 : extract_price_numeric s = some (decValue (stripPriceChars s)) := by
      rw [extract_price_numeric, if_neg (by simpa using hs)]
      simp [hv]
    have hcount : (stripPriceChars s).count '.' ≤ 1 := by
      have hvv := hv
      rw [validNumStr, Bool.and_eq_true] at hvv
      exact of_decide_eq_true hvv.2
    obtain ⟨hstrip, hvalid2, hne, hdec⟩ := renderDec_spec (stripPriceChars s) hchars hcount
    refine ⟨h1, ?_⟩
    rw [h1, extract_price_numeric, if_neg (by simpa using hne)]
    simp [hstrip, hvalid2, hdec]

/-- Witness for C8 at the price text "£1,250.75": the stripped string
"1250.75" is valid, so the function returns its decimal value, and re-parsing
the canonical rendering of that output returns the same value. -/
theorem C8_price_numeric_witness :
    extract_price_numeric "£1,250.75".toList
      = some (decValue (stripPriceChars "£1,250.75".toList)) ∧
    extract_price_numeric
        (renderDec (numOf (stripPriceChars "£1,250.75".toList))
          (fracLenOf (stripPriceChars "£1,250.75".toList)))
      = extract_price_numeric "£1,250.75".toList :=
  (C8_price_numeric "£1,250.75".toList).2 (by decide)
